import Mathlib

/-!
# Verification of `good-mitm` core rule actions (`src/core/src/rule/action/modify.rs`)

A shallow embedding of the traffic-rewriting core of the `good-mitm`
intercepting proxy, together with theorems settling the specification
claims about it.

Modelling conventions:
* Rust `String`/`&str` values are Lean `String`s; where Rust iterates over
  `char`s we work on `String.data : List Char`.
* `http::HeaderMap` is a `List (String × String)`: an ordered multimap of
  header entries (a key may occur several times, as `Set-Cookie` does).
  Header names are modelled already lowercased (the `http` crate
  normalizes names on construction, and comparisons are case-insensitive).
* `cookie::CookieJar` is a `List Cookie` with last-write-wins `add`,
  name-keyed `get`/`remove`; the list order stands in for the jar's
  (unspecified) iteration order.
* `hyper::Body` is a sum: an undrained stream carrying its drain outcome,
  or an attached buffer. A drained buffer (`Bytes` together with the
  outcome of `String::from_utf8` on it) is abstracted as `Content`:
  `Content.text s` is a buffer decoding to `s`, `Content.binary b` one on
  which decoding fails.
* The regex engine behind `crate::cache::get_regex` lives outside the
  visible source; every definition takes it as an explicit parameter
  `rex : String → String → String → String` (pattern, replacement, input).
-/

/-- Rust `str::is_empty` test on the character list of a pattern. -/
def charsEmpty (l : List Char) : Bool :=
  match l with
  | [] => true
  | _ :: _ => false

/-- One left-to-right, non-overlapping replacement pass over a character
list, for a non-empty pattern: whenever the remaining input starts with
`pat`, emit `rep` and continue after the match; otherwise keep the head
character. Models the core loop of Rust `str::replace`. A step always
consumes at least one input character, so `fuel = input length` makes the
recursion total without changing the computed value (`listReplaceAux_fuel`). -/
def listReplaceAux (pat rep : List Char) : Nat → List Char → List Char
  | 0, l => l
  | _ + 1, [] => []
  | fuel + 1, c :: rest =>
    if pat.isPrefixOf (c :: rest) then
      rep ++ listReplaceAux pat rep fuel (List.drop (pat.length - 1) rest)
    else
      c :: listReplaceAux pat rep fuel rest

/-- Rust `str::replace self pat rep`: replaces every non-overlapping
occurrence of `pat` by `rep`, left to right. An empty pattern matches at
every character boundary (Rust `"abc".replace("", "-") = "-a-b-c-"`). -/
def rustReplace (s pat rep : String) : String :=
  if charsEmpty pat.data then
    ⟨rep.data ++ (s.data.map (fun c => c :: rep.data)).flatten⟩
  else
    ⟨listReplaceAux pat.data rep.data s.data.length s.data⟩

/-- `struct Replace { origin: Option<String>, new: String }`. -/
structure Replace where
  origin : Option String
  new : String
deriving Repr, DecidableEq

/-- `impl TextAction for Replace`: with `origin = Some o` this is
`origin_text.replace(o, new)`; with `origin = None` it yields `new`. -/
def Replace.exec_action (r : Replace) (origin : String) : String :=
  match r.origin with
  | some o => rustReplace origin o r.new
  | none => r.new

/-- `struct RegexReplace { re: String, new: String }`. -/
structure RegexReplace where
  re : String
  new : String
deriving Repr, DecidableEq

/-- `impl TextAction for RegexReplace`: delegates to the external regex
service `get_regex(re).replace_all(origin, new)`, taken as the parameter
`rex`. -/
def RegexReplace.exec_action (rex : String → String → String → String)
    (r : RegexReplace) (origin : String) : String :=
  rex r.re r.new origin

/-- `struct TextSet(String)`. -/
structure TextSet where
  val : String
deriving Repr, DecidableEq

/-- `impl TextAction for TextSet`: ignores the input, yields the stored
string. -/
def TextSet.exec_action (t : TextSet) (_origin : String) : String :=
  t.val

/-- `enum TextModify { TextSet, Replace, RegexReplace }` (serde tags
`set` / `plain` / `regex`). -/
inductive TextModify
  | set (t : TextSet)
  | plain (r : Replace)
  | regex (r : RegexReplace)
deriving Repr, DecidableEq

/-- `enum_dispatch` of `TextAction::exec_action` over the three variants. -/
def TextModify.exec_action (rex : String → String → String → String) :
    TextModify → String → String
  | .set t, o => t.exec_action o
  | .plain r, o => r.exec_action o
  | .regex r, o => RegexReplace.exec_action rex r o

/-- A concrete (identity) regex engine, used to instantiate `rex` in
closed statements. -/
def rexId : String → String → String → String := fun _ _ s => s

/-! ## Header map model (`http::HeaderMap`) -/

/-- An ordered multimap of header entries. Names are modelled already
lowercased; values are modelled as text (see `RawHeaderMap` below for the
raw-value read path of `modify_header`). -/
abbrev HeaderMap := List (String × String)

/-- `HeaderMap::get`: the first value stored under `k`. -/
def hmGet (h : HeaderMap) (k : String) : Option String :=
  (h.find? (fun e => e.1 == k)).map (fun e => e.2)

/-- `HeaderMap::get_all`: every value stored under `k`, in order. -/
def hmGetAll (h : HeaderMap) (k : String) : List String :=
  (h.filter (fun e => e.1 == k)).map (fun e => e.2)

/-- `HeaderMap::remove`: drops every value stored under `k`. -/
def hmRemove (h : HeaderMap) (k : String) : HeaderMap :=
  h.filter (fun e => e.1 != k)

/-- `HeaderMap::insert`: replaces all values under `k` by the single `v`. -/
def hmInsert (h : HeaderMap) (k v : String) : HeaderMap :=
  hmRemove h k ++ [(k, v)]

/-- `HeaderMap::append`: adds one more value under `k`, keeping others. -/
def hmAppendH (h : HeaderMap) (k v : String) : HeaderMap :=
  h ++ [(k, v)]

/-- `*header.get_mut(k).unwrap() = v`: overwrite the first value under `k`
in place, leaving any further values under `k` untouched. -/
def hmSetFirst (h : HeaderMap) (k v : String) : HeaderMap :=
  match h with
  | [] => []
  | e :: t => if e.1 == k then (k, v) :: t else e :: hmSetFirst t k v

/-! ## Rule data model -/

/-- `struct MapModify { key, value: Option<TextModify>, remove: bool }`. -/
structure MapModify where
  key : String
  value : Option TextModify := none
  remove : Bool := false
deriving Repr, DecidableEq

/-- `enum Modify { Header(Vec<MapModify>), Cookies(Vec<MapModify>), Body(TextModify) }`. -/
inductive Modify
  | header (mds : List MapModify)
  | cookies (mds : List MapModify)
  | body (bm : TextModify)
deriving Repr, DecidableEq

/-- One iteration of the loop in `Modify::modify_header`
(modify.rs:260-271): `remove` drops the key; otherwise, when the key is
present and an action is given, the first value under the key is
overwritten by the action applied to it; otherwise nothing happens. -/
def modifyHeaderEntry (rex : String → String → String → String)
    (h : HeaderMap) (md : MapModify) : HeaderMap :=
  if md.remove then
    hmRemove h md.key
  else
    match hmGet h md.key with
    | some cur =>
      match md.value with
      | some act => hmSetFirst h md.key (act.exec_action rex cur)
      | none => h
    | none => h

/-- `Modify::modify_header` (modify.rs:259-272), over text-valued headers. -/
def modify_header (rex : String → String → String → String)
    (h : HeaderMap) (mds : List MapModify) : HeaderMap :=
  mds.foldl (modifyHeaderEntry rex) h

/-! ## Cookie model (`cookie` crate) -/

/-- A cookie record: name, value, and the raw serialized attribute suffix
(`""` for an attribute-free cookie such as one built by `Cookie::new`). -/
structure Cookie where
  name : String
  value : String
  attrs : String := ""
deriving Repr, DecidableEq

/-- `Cookie::to_string()`: `name=value` followed by the attribute suffix. -/
def Cookie.toStr (c : Cookie) : String :=
  c.name ++ "=" ++ c.value ++ c.attrs

/-- Split a character list at the first occurrence of `c`: the part
before it, and the remainder starting at `c` (or `[]` when absent). -/
def spanNot (c : Char) : List Char → List Char × List Char
  | [] => ([], [])
  | x :: xs =>
    if x = c then ([], x :: xs)
    else
      let p := spanNot c xs
      (x :: p.1, p.2)

/-- Strip leading and trailing whitespace from a character list
(Rust `str::trim`). -/
def trimL (l : List Char) : List Char :=
  ((l.dropWhile Char.isWhitespace).reverse.dropWhile Char.isWhitespace).reverse

/-- `Cookie::parse`: best-effort parse of `name=value` up to the first
`;`, trimming whitespace around name and value and keeping anything from
the first `;` on as the raw attribute suffix. A segment with no `=`
before the first `;`, or with an empty name, fails to parse. -/
def cookieParse (s : String) : Option Cookie :=
  let nvAttrs := spanNot ';' s.data
  let nv := spanNot '=' nvAttrs.1
  match nv.2 with
  | [] => none
  | _ :: v =>
    let name := trimL nv.1
    if charsEmpty name then none
    else some { name := ⟨name⟩, value := ⟨trimL v⟩, attrs := ⟨nvAttrs.2⟩ }

/-- `cookie::CookieJar`, as a list of cookies; `add` is last-write-wins
by name, and the list order stands in for the unspecified iteration order. -/
abbrev Jar := List Cookie

/-- `CookieJar::add`: replaces any cookie of the same name. -/
def jarAdd (j : Jar) (c : Cookie) : Jar :=
  j.filter (fun x => x.name != c.name) ++ [c]

/-- `CookieJar::remove(Cookie::named(n))`. -/
def jarRemove (j : Jar) (n : String) : Jar :=
  j.filter (fun x => x.name != n)

/-- `CookieJar::get(n)`. -/
def jarGet (j : Jar) (n : String) : Option Cookie :=
  j.find? (fun x => x.name == n)

/-- `if let Ok(c) = Cookie::parse(s) { jar.add(c) }`: malformed segments
are silently dropped. -/
def jarAddParsed (j : Jar) (s : String) : Jar :=
  match cookieParse s with
  | some c => jarAdd j c
  | none => j

/-- Left-to-right split on a non-empty separator, accumulating the
current segment in reverse; `fuel = input length` suffices as each step
consumes at least one character. -/
def splitSepAux (sep : List Char) : Nat → List Char → List Char → List (List Char)
  | 0, l, acc => [acc.reverse ++ l]
  | _ + 1, [], acc => [acc.reverse]
  | fuel + 1, c :: rest, acc =>
    if sep.isPrefixOf (c :: rest) then
      acc.reverse :: splitSepAux sep fuel (List.drop (sep.length - 1) rest) []
    else
      splitSepAux sep fuel rest (c :: acc)

/-- Rust `str::split(sep)` collected to a list, for a non-empty literal
separator. -/
def strSplitOn (s sep : String) : List String :=
  if charsEmpty sep.data then [s]
  else (splitSepAux sep.data s.data.length s.data []).map String.mk

/-- Parsing a `Cookie` header: split on `"; "`, best-effort parse of each
segment into a fresh jar (modify.rs:122-130 and 197-205). -/
def parseCookieHeader (s : String) : Jar :=
  (strSplitOn s "; ").foldl jarAddParsed []

/-- The jar built from the `Cookie` header, empty when the header is
absent. -/
def cookieHeaderJar (h : HeaderMap) : Jar :=
  match hmGet h "cookie" with
  | some s => parseCookieHeader s
  | none => []

/-- The jar built from all `Set-Cookie` headers of a response
(modify.rs:207-214). -/
def setCookieJar (h : HeaderMap) : Jar :=
  (hmGetAll h "set-cookie").foldl jarAddParsed []

/-- `cookies_jar.iter().map(to_string).join("; ")`. -/
def serializeJar (j : Jar) : String :=
  String.intercalate "; " (j.map Cookie.toStr)

/-! ## Body and message model (`hyper`) -/

/-- A drained body buffer together with the outcome of
`String::from_utf8` on it: `text s` decodes to `s`, `binary b` fails to
decode. -/
inductive Content
  | text (s : String)
  | binary (b : List UInt8)
deriving Repr, DecidableEq

deriving instance DecidableEq for Except

/-- `hyper::Body`: either a still-streamed payload carrying the outcome
draining it would produce, or an attached buffer (`Body::from(...)`). -/
inductive Body
  | stream (drained : Except String Content)
  | buf (c : Content)
deriving Repr, DecidableEq

/-- `hyper::body::to_bytes(body).await`, with `Err` carrying
`err.to_string()`. -/
def Body.toBytes : Body → Except String Content
  | .stream d => d
  | .buf c => .ok c

/-- `hyper::Request<Body>`: the parts we model are the header map and the
body. -/
structure Request where
  headers : HeaderMap
  body : Body
deriving Repr, DecidableEq

/-- `hyper::Response<Body>`: status code, header map and body. -/
structure Response where
  status : Nat := 200
  headers : HeaderMap
  body : Body
deriving Repr, DecidableEq

/-- Rust `str::contains(pat)`: substring containment. -/
def strContainsSub (s pat : String) : Bool :=
  decide (pat.data <:+: s.data)

/-- The content-type gate (modify.rs:91-97 and 164-170): the
`content-type` header is present and its value contains `"text"` or
`"javascript"` as a substring. -/
def contentTypeGate (h : HeaderMap) : Bool :=
  match hmGet h "content-type" with
  | some ct => strContainsSub ct "text" || strContainsSub ct "javascript"
  | none => false

/-! ## The `Modify` operations -/

/-- The `Modify::Body` arm of `modify_req` (modify.rs:89-112). -/
def modifyReqBody (rex : String → String → String → String)
    (bm : TextModify) (req : Request) : Option Request :=
  if contentTypeGate req.headers then
    match req.body.toBytes with
    | .ok (.text t) => some { req with body := .buf (.text (bm.exec_action rex t)) }
    | .ok (.binary b) => some { req with body := .buf (.binary b) }
    | .error _ => none
  else
    some req

/-- The `Modify::Body` arm of `modify_res` (modify.rs:162-186): a drain
failure is downgraded to a synthesized `502 Bad Gateway` response whose
body is the error description. -/
def modifyResBody (rex : String → String → String → String)
    (bm : TextModify) (res : Response) : Response :=
  if contentTypeGate res.headers then
    match res.body.toBytes with
    | .ok (.text t) => { res with body := .buf (.text (bm.exec_action rex t)) }
    | .ok (.binary b) => { res with body := .buf (.binary b) }
    | .error err => { status := 502, headers := [], body := .buf (.text err) }
  else
    res

/-- One iteration of the `Modify::Cookies` loop of `modify_req`
(modify.rs:132-148). With `remove` unset, the upserted value is
`action(current-or-empty)` when an action is given and `""` otherwise
(the `unwrap_or_default()` on `c.value.map(...)`). -/
def reqCookieStep (rex : String → String → String → String)
    (j : Jar) (c : MapModify) : Jar :=
  if c.remove then
    jarRemove j c.key
  else
    let newVal :=
      match c.value with
      | some md =>
        md.exec_action rex
          (match jarGet j c.key with
           | some ck => ck.value
           | none => "")
      | none => ""
    jarAdd j { name := c.key, value := newVal }

/-- The jar of the `Modify::Cookies` arm of `modify_req` after the whole
edit loop. -/
def reqCookieJar (rex : String → String → String → String)
    (mds : List MapModify) (h : HeaderMap) : Jar :=
  mds.foldl (reqCookieStep rex) (cookieHeaderJar h)

/-- The `Modify::Cookies` arm of `modify_req` (modify.rs:118-156):
rebuild the jar, then insert its serialization as the single `Cookie`
header. -/
def modifyReqCookies (rex : String → String → String → String)
    (mds : List MapModify) (req : Request) : Request :=
  { req with
    headers := hmInsert req.headers "cookie"
      (serializeJar (reqCookieJar rex mds req.headers)) }

/-- One iteration of the `Modify::Cookies` loop of `modify_res`
(modify.rs:216-239), acting on the pair (jar A from `Cookie`, jar B from
`Set-Cookie`): `remove` deletes the name from both; otherwise the current
value is looked up in A first, then B, then defaults to `""`, and the
attribute-free result cookie is upserted into both. -/
def resCookieStep (rex : String → String → String → String)
    (ab : Jar × Jar) (c : MapModify) : Jar × Jar :=
  if c.remove then
    (jarRemove ab.1 c.key, jarRemove ab.2 c.key)
  else
    let newVal :=
      match c.value with
      | some md =>
        md.exec_action rex
          (match jarGet ab.1 c.key with
           | some ck => ck.value
           | none =>
             match jarGet ab.2 c.key with
             | some ck => ck.value
             | none => "")
      | none => ""
    let ck : Cookie := { name := c.key, value := newVal }
    (jarAdd ab.1 ck, jarAdd ab.2 ck)

/-- The current value of cookie `k` as the response-side edit resolves
it: jar A (`Cookie` header) first, then jar B (`Set-Cookie` headers),
then the empty string. -/
def currentFromJars (ab : Jar × Jar) (k : String) : String :=
  match jarGet ab.1 k with
  | some ck => ck.value
  | none =>
    match jarGet ab.2 k with
    | some ck => ck.value
    | none => ""

/-- Both jars of the `Modify::Cookies` arm of `modify_res` after the
whole edit loop. -/
def resCookieJars (rex : String → String → String → String)
    (mds : List MapModify) (h : HeaderMap) : Jar × Jar :=
  mds.foldl (resCookieStep rex) (cookieHeaderJar h, setCookieJar h)

/-- The `Modify::Cookies` arm of `modify_res` (modify.rs:193-255): insert
jar A's serialization as the single `Cookie` header, remove every
`Set-Cookie` header, then append one `Set-Cookie` header per cookie of
jar B. -/
def modifyResCookies (rex : String → String → String → String)
    (mds : List MapModify) (res : Response) : Response :=
  let jars := resCookieJars rex mds res.headers
  let h1 := hmInsert res.headers "cookie" (serializeJar jars.1)
  let h2 := hmRemove h1 "set-cookie"
  let h3 := jars.2.foldl (fun h c => hmAppendH h "set-cookie" c.toStr) h2
  { res with headers := h3 }

/-- `Modify::modify_req` (modify.rs:87-158). `none` models the `None`
return that tells the caller to abort forwarding. -/
def Modify.modify_req (rex : String → String → String → String)
    (m : Modify) (req : Request) : Option Request :=
  match m with
  | .body bm => modifyReqBody rex bm req
  | .header mds => some { req with headers := modify_header rex req.headers mds }
  | .cookies mds => some (modifyReqCookies rex mds req)

/-- `Modify::modify_res` (modify.rs:160-257). -/
def Modify.modify_res (rex : String → String → String → String)
    (m : Modify) (res : Response) : Response :=
  match m with
  | .body bm => modifyResBody rex bm res
  | .header mds => { res with headers := modify_header rex res.headers mds }
  | .cookies mds => modifyResCookies rex mds res

/-! ## Raw header values: the `to_str()` read path of `modify_header` -/

/-- A raw `http::HeaderValue`: either valid text, or bytes on which
`to_str()` fails. -/
inductive HVal
  | ok (s : String)
  | bad
deriving Repr, DecidableEq

/-- `HeaderValue::to_str().unwrap_or_default()` (modify.rs:266). -/
def HVal.toStrD : HVal → String
  | .ok s => s
  | .bad => ""

/-- Header multimap over raw values. -/
abbrev RawHeaderMap := List (String × HVal)

/-- `HeaderMap::get` over raw values. -/
def rawGet (h : RawHeaderMap) (k : String) : Option HVal :=
  (h.find? (fun e => e.1 == k)).map (fun e => e.2)

/-- In-place overwrite of the first value under `k`, over raw values. -/
def rawSetFirst (h : RawHeaderMap) (k : String) (v : HVal) : RawHeaderMap :=
  match h with
  | [] => []
  | e :: t => if e.1 == k then (k, v) :: t else e :: rawSetFirst t k v

/-- One iteration of the `Modify::modify_header` loop over raw header
values, keeping the source's `to_str().unwrap_or_default()` on the read:
a value on which `to_str()` fails is read as `""`, the action runs on
`""`, and the (valid-text) result is written back. The write-side
`HeaderValue::from_str(..).unwrap()` is modelled as always succeeding:
action results are text. -/
def modifyHeaderEntryRaw (rex : String → String → String → String)
    (h : RawHeaderMap) (md : MapModify) : RawHeaderMap :=
  if md.remove then
    h.filter (fun e => e.1 != md.key)
  else
    match rawGet h md.key with
    | some cur =>
      match md.value with
      | some act => rawSetFirst h md.key (HVal.ok (act.exec_action rex cur.toStrD))
      | none => h
    | none => h

/-- `Modify::modify_header` (modify.rs:259-272) over raw header values. -/
def modify_header_raw (rex : String → String → String → String)
    (h : RawHeaderMap) (mds : List MapModify) : RawHeaderMap :=
  mds.foldl (modifyHeaderEntryRaw rex) h

/-! ## Generic list helpers -/

theorem filter_comm_of_imp {α : Type} (p q : α → Bool) (l : List α)
    (himp : ∀ a, p a = true → q a = true) :
    (l.filter q).filter p = l.filter p := by
  induction l with
  | nil => rfl
  | cons a t ih =>
    by_cases hp : p a = true
    · have hq := himp a hp
      simp [List.filter_cons, hp, hq, ih]
    · have hp' : p a = false := by
        revert hp
        cases p a <;> simp
      by_cases hq : q a = true
      · simp [List.filter_cons, hp', hq, ih]
      · have hq' : q a = false := by
          revert hq
          cases q a <;> simp
        simp [List.filter_cons, hp', hq', ih]

theorem find?_filter_of_imp {α : Type} (p q : α → Bool) (l : List α)
    (himp : ∀ a, p a = true → q a = true) :
    (l.filter q).find? p = l.find? p := by
  induction l with
  | nil => rfl
  | cons a t ih =>
    by_cases hp : p a = true
    · have hq := himp a hp
      simp [List.filter_cons, hq, List.find?_cons, hp, ih]
    · have hp' : p a = false := by
        revert hp
        cases p a <;> simp
      by_cases hq : q a = true
      · simp [List.filter_cons, hq, List.find?_cons, hp', ih]
      · have hq' : q a = false := by
          revert hq
          cases q a <;> simp
        simp [List.filter_cons, hq', List.find?_cons, hp', ih]

theorem find?_filter_none {α : Type} (p q : α → Bool) (l : List α)
    (h : l.find? p = none) : (l.filter q).find? p = none := by
  rw [List.find?_eq_none] at h ⊢
  intro x hx
  exact h x (List.mem_filter.mp hx).1

theorem filter_not_self {α : Type} (p : α → Bool) (l : List α) :
    (l.filter (fun a => !(p a))).filter p = [] := by
  rw [List.filter_eq_nil_iff]
  intro a ha
  have := (List.mem_filter.mp ha).2
  simp only [Bool.not_eq_true'] at this
  simp [this]

/-! ## Header-map helpers -/

theorem hmGetAll_appendH_same (h : HeaderMap) (k v : String) :
    hmGetAll (hmAppendH h k v) k = hmGetAll h k ++ [v] := by
  simp [hmGetAll, hmAppendH, List.filter_append]

theorem hmGetAll_appendH_other (h : HeaderMap) (k q v : String) (hne : q ≠ k) :
    hmGetAll (hmAppendH h q v) k = hmGetAll h k := by
  simp [hmGetAll, hmAppendH, List.filter_append, hne]

theorem hmGetAll_hmRemove_same (h : HeaderMap) (k : String) :
    hmGetAll (hmRemove h k) k = [] := by
  unfold hmGetAll hmRemove
  have : (h.filter (fun e => e.1 != k)).filter (fun e => e.1 == k) = [] := by
    have := filter_not_self (fun e : String × String => e.1 == k) h
    simpa [bne] using this
  rw [this]
  rfl

theorem hmGetAll_hmRemove_other (h : HeaderMap) (k q : String) (hne : k ≠ q) :
    hmGetAll (hmRemove h q) k = hmGetAll h k := by
  unfold hmGetAll hmRemove
  rw [filter_comm_of_imp]
  intro e he
  have : e.1 = k := by simpa using he
  simp [bne, this, hne]

theorem hmGetAll_hmInsert_same (h : HeaderMap) (k v : String) :
    hmGetAll (hmInsert h k v) k = [v] := by
  unfold hmGetAll hmInsert hmRemove
  rw [List.filter_append]
  have h1 : (h.filter (fun e => e.1 != k)).filter (fun e => e.1 == k) = [] := by
    have := filter_not_self (fun e : String × String => e.1 == k) h
    simpa [bne] using this
  rw [h1]
  simp

theorem find?_filter_not {α : Type} (p : α → Bool) (l : List α) :
    (l.filter (fun a => !(p a))).find? p = none := by
  rw [List.find?_eq_none]
  intro x hx
  have := (List.mem_filter.mp hx).2
  simp only [Bool.not_eq_true'] at this
  simp [this]

theorem hmGet_hmInsert_same (h : HeaderMap) (k v : String) :
    hmGet (hmInsert h k v) k = some v := by
  unfold hmGet hmInsert hmRemove
  rw [List.find?_append]
  have h1 : (h.filter (fun e => e.1 != k)).find? (fun e => e.1 == k) = none := by
    have := find?_filter_not (fun e : String × String => e.1 == k) h
    simpa [bne] using this
  rw [h1]
  simp

theorem hmGet_cons (e : String × String) (t : HeaderMap) (k : String) :
    hmGet (e :: t) k = if e.1 == k then some e.2 else hmGet t k := by
  unfold hmGet
  cases he : e.1 == k <;> simp [List.find?_cons, he]

theorem hmSetFirst_cons (e : String × String) (t : HeaderMap) (k v : String) :
    hmSetFirst (e :: t) k v =
      if e.1 == k then (k, v) :: t else e :: hmSetFirst t k v := by
  rfl

theorem hmGet_hmSetFirst_same (h : HeaderMap) (q v cur : String)
    (hq : hmGet h q = some cur) : hmGet (hmSetFirst h q v) q = some v := by
  induction h with
  | nil => simp [hmGet] at hq
  | cons e t ih =>
    rw [hmGet_cons] at hq
    rw [hmSetFirst_cons]
    cases he : e.1 == q
    · rw [if_neg (by simp [he]), hmGet_cons, if_neg (by simp [he])]
      rw [if_neg (by simp [he])] at hq
      exact ih hq
    · rw [if_pos (by simp), hmGet_cons, if_pos (by simp)]

theorem hmGet_hmSetFirst_other (h : HeaderMap) (q v k : String) (hne : k ≠ q) :
    hmGet (hmSetFirst h q v) k = hmGet h k := by
  induction h with
  | nil => rfl
  | cons e t ih =>
    rw [hmSetFirst_cons]
    by_cases he : e.1 = q
    · have h1 : ¬ q = k := fun hh => hne hh.symm
      have h2 : ¬ e.1 = k := fun hh => hne (he ▸ hh).symm
      rw [if_pos (by simp [he]), hmGet_cons, hmGet_cons, if_neg (by simp [h1]),
        if_neg (by simp [h2])]
    · rw [if_neg (by simp [he]), hmGet_cons, hmGet_cons]
      by_cases hek : e.1 = k
      · rw [if_pos (by simp [hek]), if_pos (by simp [hek])]
      · rw [if_neg (by simp [hek]), if_neg (by simp [hek])]
        exact ih

/-! ## Cookie-jar helpers -/

theorem jarGet_jarAdd_same (j : Jar) (c : Cookie) :
    jarGet (jarAdd j c) c.name = some c := by
  unfold jarGet jarAdd
  rw [List.find?_append]
  have h1 : (j.filter (fun x => x.name != c.name)).find? (fun x => x.name == c.name) = none := by
    have := find?_filter_not (fun x : Cookie => x.name == c.name) j
    simpa [bne] using this
  rw [h1]
  simp [List.find?_cons]

theorem jarGet_jarAdd_other (j : Jar) (c : Cookie) (n : String) (hne : c.name ≠ n) :
    jarGet (jarAdd j c) n = jarGet j n := by
  unfold jarGet jarAdd
  rw [List.find?_append]
  have h2 : [c].find? (fun x => x.name == n) = none := by
    simp [List.find?_cons, hne]
  rw [h2, Option.or_none]
  apply find?_filter_of_imp
  intro x hx
  have hxn : x.name = n := by simpa using hx
  rw [hxn]
  exact bne_iff_ne.mpr (fun hh => hne hh.symm)

theorem jarGet_jarRemove_same (j : Jar) (n : String) :
    jarGet (jarRemove j n) n = none := by
  unfold jarGet jarRemove
  have := find?_filter_not (fun x : Cookie => x.name == n) j
  simpa [bne] using this

theorem jarGet_jarRemove_other (j : Jar) (m n : String) (hne : m ≠ n) :
    jarGet (jarRemove j m) n = jarGet j n := by
  unfold jarGet jarRemove
  apply find?_filter_of_imp
  intro x hx
  have hxn : x.name = n := by simpa using hx
  rw [hxn]
  exact bne_iff_ne.mpr (fun hh => hne hh.symm)

theorem jarAdd_of_absent (j : Jar) (c : Cookie) (h : jarGet j c.name = none) :
    jarAdd j c = j ++ [c] := by
  unfold jarAdd
  unfold jarGet at h
  rw [List.find?_eq_none] at h
  congr 1
  rw [List.filter_eq_self]
  intro x hx
  have hf : (x.name == c.name) = false := Bool.eq_false_iff.mpr (h x hx)
  simp [bne, hf]

/-! ## Fold helpers for `modify_res` cookie emission -/

theorem setCookieFold_getAll (cs : List Cookie) (h : HeaderMap) :
    hmGetAll (cs.foldl (fun hh c => hmAppendH hh "set-cookie" c.toStr) h) "set-cookie" =
      hmGetAll h "set-cookie" ++ cs.map Cookie.toStr := by
  induction cs generalizing h with
  | nil => simp
  | cons c t ih =>
    rw [List.foldl_cons, ih, hmGetAll_appendH_same]
    simp

theorem setCookieFold_getAll_other (cs : List Cookie) (h : HeaderMap) (k : String)
    (hne : k ≠ "set-cookie") :
    hmGetAll (cs.foldl (fun hh c => hmAppendH hh "set-cookie" c.toStr) h) k =
      hmGetAll h k := by
  induction cs generalizing h with
  | nil => rfl
  | cons c t ih =>
    rw [List.foldl_cons, ih, hmGetAll_appendH_other]
    exact fun hh => hne hh.symm

theorem resCookieStep_preserves_other (rex : String → String → String → String)
    (ab : Jar × Jar) (c : MapModify) (n : String) (hne : c.key ≠ n) :
    jarGet (resCookieStep rex ab c).1 n = jarGet ab.1 n ∧
      jarGet (resCookieStep rex ab c).2 n = jarGet ab.2 n := by
  unfold resCookieStep
  cases hr : c.remove
  · rw [if_neg (by simp [hr])]
    exact ⟨jarGet_jarAdd_other _ _ _ hne, jarGet_jarAdd_other _ _ _ hne⟩
  · rw [if_pos (by simp [hr])]
    exact ⟨jarGet_jarRemove_other _ _ _ hne, jarGet_jarRemove_other _ _ _ hne⟩

theorem foldl_resCookieStep_untouched (rex : String → String → String → String)
    (n : String) (mds : List MapModify) :
    ∀ ab : Jar × Jar, (∀ c ∈ mds, c.key ≠ n) →
      jarGet (mds.foldl (resCookieStep rex) ab).1 n = jarGet ab.1 n ∧
        jarGet (mds.foldl (resCookieStep rex) ab).2 n = jarGet ab.2 n := by
  induction mds with
  | nil => exact fun ab _ => ⟨rfl, rfl⟩
  | cons c t ih =>
    intro ab hall
    have hc : c.key ≠ n := hall c (by simp)
    have ht : ∀ x ∈ t, x.key ≠ n := fun x hx => hall x (by simp [hx])
    rw [List.foldl_cons]
    have hstep := resCookieStep_preserves_other rex ab c n hc
    have hrest := ih (resCookieStep rex ab c) ht
    exact ⟨hrest.1.trans hstep.1, hrest.2.trans hstep.2⟩

/-! ## `str::replace` helpers -/

theorem listReplaceAux_fuel (pat rep : List Char) :
    ∀ f₁ f₂ l, l.length ≤ f₁ → l.length ≤ f₂ →
      listReplaceAux pat rep f₁ l = listReplaceAux pat rep f₂ l := by
  intro f₁
  induction f₁ with
  | zero =>
    intro f₂ l h1 _
    have hl : l = [] := List.length_eq_zero.mp (Nat.le_zero.mp h1)
    subst hl
    cases f₂ <;> rfl
  | succ f ih =>
    intro f₂ l h1 h2
    cases l with
    | nil => cases f₂ <;> rfl
    | cons c rest =>
      cases f₂ with
      | zero => simp at h2
      | succ g =>
        show (if pat.isPrefixOf (c :: rest) then
                rep ++ listReplaceAux pat rep f (List.drop (pat.length - 1) rest)
              else c :: listReplaceAux pat rep f rest) =
             (if pat.isPrefixOf (c :: rest) then
                rep ++ listReplaceAux pat rep g (List.drop (pat.length - 1) rest)
              else c :: listReplaceAux pat rep g rest)
        have hdrop : (List.drop (pat.length - 1) rest).length ≤ rest.length := by
          rw [List.length_drop]
          omega
        have hr1 : rest.length ≤ f := by
          simp only [List.length_cons] at h1
          omega
        have hr2 : rest.length ≤ g := by
          simp only [List.length_cons] at h2
          omega
        by_cases hp : pat.isPrefixOf (c :: rest) = true
        · rw [if_pos hp, if_pos hp, ih g (List.drop (pat.length - 1) rest)
            (Nat.le_trans hdrop hr1) (Nat.le_trans hdrop hr2)]
        · rw [if_neg hp, if_neg hp, ih g rest hr1 hr2]

theorem charsEmpty_false (o : String) (ho : o.data ≠ []) :
    charsEmpty o.data = false := by
  cases hod : o.data with
  | nil => exact absurd hod ho
  | cons a t => rfl

theorem rustReplace_nil (o rep : String) (ho : o.data ≠ []) :
    rustReplace ⟨[]⟩ o rep = ⟨[]⟩ := by
  unfold rustReplace
  rw [if_neg (by simp [charsEmpty_false o ho])]
  rfl

theorem rustReplace_head_match (o rep : String) (r : List Char) (ho : o.data ≠ []) :
    rustReplace ⟨o.data ++ r⟩ o rep = ⟨rep.data ++ (rustReplace ⟨r⟩ o rep).data⟩ := by
  obtain ⟨p, ps, hops⟩ : ∃ p ps, o.data = p :: ps := by
    cases hod : o.data with
    | nil => exact absurd hod ho
    | cons a t => exact ⟨a, t, rfl⟩
  unfold rustReplace
  rw [if_neg (by simp [charsEmpty_false o ho]), if_neg (by simp [charsEmpty_false o ho])]
  have key : listReplaceAux o.data rep.data (o.data ++ r).length (o.data ++ r) =
      rep.data ++ listReplaceAux o.data rep.data r.length r := by
    rw [hops]
    show listReplaceAux (p :: ps) rep.data ((ps ++ r).length + 1) (p :: (ps ++ r)) =
      rep.data ++ listReplaceAux (p :: ps) rep.data r.length r
    have hpre : (p :: ps).isPrefixOf (p :: (ps ++ r)) = true :=
      List.isPrefixOf_iff_prefix.mpr (List.prefix_append (p :: ps) r)
    rw [listReplaceAux, if_pos hpre]
    have hlen : (p :: ps).length - 1 = ps.length := by simp
    rw [hlen, List.drop_left]
    have hfuel : listReplaceAux (p :: ps) rep.data (ps ++ r).length r =
        listReplaceAux (p :: ps) rep.data r.length r := by
      apply listReplaceAux_fuel
      · rw [List.length_append]
        omega
      · exact Nat.le_refl _
    rw [hfuel]
  exact congrArg String.mk key

theorem rustReplace_head_nomatch (o rep : String) (c : Char) (r : List Char)
    (ho : o.data ≠ []) (h : ¬ o.data.isPrefixOf (c :: r) = true) :
    rustReplace ⟨c :: r⟩ o rep = ⟨c :: (rustReplace ⟨r⟩ o rep).data⟩ := by
  unfold rustReplace
  rw [if_neg (by simp [charsEmpty_false o ho]), if_neg (by simp [charsEmpty_false o ho])]
  have key : listReplaceAux o.data rep.data (r.length + 1) (c :: r) =
      c :: listReplaceAux o.data rep.data r.length r := by
    rw [listReplaceAux, if_neg h]
  exact congrArg String.mk key

/-! ## Claim theorems -/

/-- **C9.** For every input text `t`, `Replace{origin: None, new}` yields
`new`; and for `origin = Some o` with `o` non-empty, `exec_action` is
exactly the left-to-right replacement of every non-overlapping literal
occurrence of `o` by `new`, characterized by its structural equations:
empty input yields empty output; input starting with an occurrence of `o`
emits `new` and continues after that occurrence; input whose head starts
no occurrence keeps the head character and continues. -/
theorem claim_C9_replace_exec :
    (∀ nw t : String, Replace.exec_action ⟨none, nw⟩ t = nw) ∧
    (∀ o nw : String, o.data ≠ [] →
      (Replace.exec_action ⟨some o, nw⟩ ⟨[]⟩ = ⟨[]⟩) ∧
      (∀ r : List Char,
        Replace.exec_action ⟨some o, nw⟩ ⟨o.data ++ r⟩ =
          ⟨nw.data ++ (Replace.exec_action ⟨some o, nw⟩ ⟨r⟩).data⟩) ∧
      (∀ (c : Char) (r : List Char), ¬ o.data.isPrefixOf (c :: r) = true →
        Replace.exec_action ⟨some o, nw⟩ ⟨c :: r⟩ =
          ⟨c :: (Replace.exec_action ⟨some o, nw⟩ ⟨r⟩).data⟩)) := by
  constructor
  · intro nw t
    rfl
  · intro o nw ho
    exact ⟨rustReplace_nil o nw ho,
      fun r => rustReplace_head_match o nw r ho,
      fun c r h => rustReplace_head_nomatch o nw c r ho h⟩

/-- Witness for C9 at `o = "ab"`, `new = "X"`, input `"ab" ++ "cab"`. -/
theorem claim_C9_replace_exec_witness :
    Replace.exec_action ⟨some "ab", "X"⟩ ⟨"ab".data ++ "cab".data⟩ =
      ⟨"X".data ++ (Replace.exec_action ⟨some "ab", "X"⟩ ⟨"cab".data⟩).data⟩ :=
  (claim_C9_replace_exec.2 "ab" "X" (by decide)).2.1 "cab".data

/-- **C4.** The body transform applies the `TextAction` iff the
content-type header is present and its value contains the substring
`"text"` or `"javascript"`; when the gate does not match (including an
absent header) the message is returned with its payload untouched, for
requests and responses alike. -/
theorem claim_C4_body_gate (rex : String → String → String → String)
    (bm : TextModify) (req : Request) (res : Response) :
    (contentTypeGate req.headers = true ↔
      ∃ ct, hmGet req.headers "content-type" = some ct ∧
        ("text".data <:+: ct.data ∨ "javascript".data <:+: ct.data)) ∧
    (contentTypeGate req.headers = false →
      Modify.modify_req rex (.body bm) req = some req) ∧
    (contentTypeGate res.headers = false →
      Modify.modify_res rex (.body bm) res = res) ∧
    (∀ t, contentTypeGate req.headers = true → req.body.toBytes = .ok (.text t) →
      Modify.modify_req rex (.body bm) req =
        some { req with body := .buf (.text (bm.exec_action rex t)) }) ∧
    (∀ t, contentTypeGate res.headers = true → res.body.toBytes = .ok (.text t) →
      Modify.modify_res rex (.body bm) res =
        { res with body := .buf (.text (bm.exec_action rex t)) }) := by
  refine ⟨?_, ?_, ?_, ?_, ?_⟩
  · rcases hct : hmGet req.headers "content-type" with _ | ct
    · simp [contentTypeGate, hct]
    · simp [contentTypeGate, hct, strContainsSub]
  · intro h
    simp [Modify.modify_req, modifyReqBody, h]
  · intro h
    simp [Modify.modify_res, modifyResBody, h]
  · intro t hg hb
    simp [Modify.modify_req, modifyReqBody, hg, hb]
  · intro t hg hb
    simp [Modify.modify_res, modifyResBody, hg, hb]

/-- Witness for C4: a `text/plain` request body is rewritten by
`Set("bye")`, and an `image/png` one passes through. -/
theorem claim_C4_body_gate_witness :
    contentTypeGate [("content-type", "text/plain")] = true ∧
    Modify.modify_req rexId (.body (.set ⟨"bye"⟩))
      { headers := [("content-type", "text/plain")], body := .buf (.text "hello") } =
      some { headers := [("content-type", "text/plain")], body := .buf (.text "bye") } ∧
    Modify.modify_req rexId (.body (.set ⟨"bye"⟩))
      { headers := [("content-type", "image/png")], body := .stream (.ok (.text "hello")) } =
      some { headers := [("content-type", "image/png")], body := .stream (.ok (.text "hello")) } :=
  ⟨by decide,
   (claim_C4_body_gate rexId (.set ⟨"bye"⟩)
      { headers := [("content-type", "text/plain")], body := .buf (.text "hello") }
      { status := 200, headers := [], body := .buf (.text "") }).2.2.2.1 "hello"
      (by decide) rfl,
   (claim_C4_body_gate rexId (.set ⟨"bye"⟩)
      { headers := [("content-type", "image/png")], body := .stream (.ok (.text "hello")) }
      { status := 200, headers := [], body := .buf (.text "") }).2.1
      (by decide)⟩

/-- **C5.** Under a matching content-type gate, a failed body drain makes
`modify_req` return no request, while `modify_res` returns a synthesized
`502 Bad Gateway` response whose body is the drain error's description. -/
theorem claim_C5_drain_failure (rex : String → String → String → String)
    (bm : TextModify) (req : Request) (res : Response) (e : String) :
    (contentTypeGate req.headers = true → req.body.toBytes = .error e →
      Modify.modify_req rex (.body bm) req = none) ∧
    (contentTypeGate res.headers = true → res.body.toBytes = .error e →
      Modify.modify_res rex (.body bm) res =
        { status := 502, headers := [], body := .buf (.text e) }) := by
  constructor
  · intro hg hb
    simp [Modify.modify_req, modifyReqBody, hg, hb]
  · intro hg hb
    simp [Modify.modify_res, modifyResBody, hg, hb]

/-- Witness for C5 at a concrete failing stream. -/
theorem claim_C5_drain_failure_witness :
    Modify.modify_req rexId (.body (.set ⟨"x"⟩))
      { headers := [("content-type", "text/html")], body := .stream (.error "boom") } = none ∧
    Modify.modify_res rexId (.body (.set ⟨"x"⟩))
      { status := 200, headers := [("content-type", "text/html")],
        body := .stream (.error "boom") } =
      { status := 502, headers := [], body := .buf (.text "boom") } :=
  ⟨(claim_C5_drain_failure rexId (.set ⟨"x"⟩)
      { headers := [("content-type", "text/html")], body := .stream (.error "boom") }
      { status := 200, headers := [], body := .buf (.text "") } "boom").1
      (by decide) rfl,
   (claim_C5_drain_failure rexId (.set ⟨"x"⟩)
      { headers := [], body := .buf (.text "") }
      { status := 200, headers := [("content-type", "text/html")],
        body := .stream (.error "boom") } "boom").2
      (by decide) rfl⟩

/-- **C6.** Under a matching content-type gate, a drained body that is
not valid UTF-8 is re-attached bit-for-bit unchanged and the headers are
untouched, for requests and responses alike. -/
theorem claim_C6_non_utf8 (rex : String → String → String → String)
    (bm : TextModify) (req : Request) (res : Response) (b : List UInt8) :
    (contentTypeGate req.headers = true → req.body.toBytes = .ok (.binary b) →
      Modify.modify_req rex (.body bm) req =
        some { req with body := .buf (.binary b) }) ∧
    (contentTypeGate res.headers = true → res.body.toBytes = .ok (.binary b) →
      Modify.modify_res rex (.body bm) res =
        { res with body := .buf (.binary b) }) := by
  constructor
  · intro hg hb
    simp [Modify.modify_req, modifyReqBody, hg, hb]
  · intro hg hb
    simp [Modify.modify_res, modifyResBody, hg, hb]

/-- Witness for C6 at one non-UTF8 byte. -/
theorem claim_C6_non_utf8_witness :
    Modify.modify_req rexId (.body (.set ⟨"x"⟩))
      { headers := [("content-type", "text/html")], body := .stream (.ok (.binary [255])) } =
      some { headers := [("content-type", "text/html")], body := .buf (.binary [255]) } :=
  (claim_C6_non_utf8 rexId (.set ⟨"x"⟩)
    { headers := [("content-type", "text/html")], body := .stream (.ok (.binary [255])) }
    { status := 200, headers := [], body := .buf (.text "") } [255]).1
    (by decide) rfl

/-! ## Shared step lemmas for the cookie edit loops -/

theorem resCookieStep_remove (rex : String → String → String → String)
    (ab : Jar × Jar) (c : MapModify) (hr : c.remove = true) :
    resCookieStep rex ab c = (jarRemove ab.1 c.key, jarRemove ab.2 c.key) := by
  unfold resCookieStep
  rw [if_pos hr]

theorem resCookieStep_modify (rex : String → String → String → String)
    (ab : Jar × Jar) (c : MapModify) (act : TextModify)
    (hr : c.remove = false) (hv : c.value = some act) :
    resCookieStep rex ab c =
      (jarAdd ab.1 ⟨c.key, act.exec_action rex (currentFromJars ab c.key), ""⟩,
       jarAdd ab.2 ⟨c.key, act.exec_action rex (currentFromJars ab c.key), ""⟩) := by
  unfold resCookieStep
  rw [if_neg (by simp [hr]), hv]
  rfl

theorem resCookieStep_value_none (rex : String → String → String → String)
    (ab : Jar × Jar) (c : MapModify) (hr : c.remove = false) (hv : c.value = none) :
    resCookieStep rex ab c =
      (jarAdd ab.1 ⟨c.key, "", ""⟩, jarAdd ab.2 ⟨c.key, "", ""⟩) := by
  unfold resCookieStep
  rw [if_neg (by simp [hr]), hv]

theorem reqCookieStep_remove (rex : String → String → String → String)
    (j : Jar) (c : MapModify) (hr : c.remove = true) :
    reqCookieStep rex j c = jarRemove j c.key := by
  unfold reqCookieStep
  rw [if_pos hr]

theorem reqCookieStep_modify (rex : String → String → String → String)
    (j : Jar) (c : MapModify) (act : TextModify)
    (hr : c.remove = false) (hv : c.value = some act) :
    reqCookieStep rex j c =
      jarAdd j ⟨c.key,
        act.exec_action rex
          (match jarGet j c.key with
           | some ck => ck.value
           | none => ""), ""⟩ := by
  unfold reqCookieStep
  rw [if_neg (by simp [hr]), hv]

theorem reqCookieStep_value_none (rex : String → String → String → String)
    (j : Jar) (c : MapModify) (hr : c.remove = false) (hv : c.value = none) :
    reqCookieStep rex j c = jarAdd j ⟨c.key, "", ""⟩ := by
  unfold reqCookieStep
  rw [if_neg (by simp [hr]), hv]

theorem hmGet_hmRemove_none (h : HeaderMap) (q k : String) (hk : hmGet h k = none) :
    hmGet (hmRemove h q) k = none := by
  unfold hmGet at hk ⊢
  unfold hmRemove
  rw [Option.map_eq_none'] at hk ⊢
  exact find?_filter_none _ _ _ hk

theorem hmGet_modifyHeaderEntry_none (rex : String → String → String → String)
    (h : HeaderMap) (md : MapModify) (k : String) (hk : hmGet h k = none) :
    hmGet (modifyHeaderEntry rex h md) k = none := by
  unfold modifyHeaderEntry
  cases hr : md.remove
  · rw [if_neg (by simp)]
    cases hq : hmGet h md.key with
    | none => exact hk
    | some cur =>
      cases hv : md.value with
      | none => exact hk
      | some act =>
        by_cases hkk : k = md.key
        · rw [hkk] at hk
          rw [hk] at hq
          exact absurd hq (by simp)
        · rw [hmGet_hmSetFirst_other h md.key _ k hkk]
          exact hk
  · rw [if_pos (by simp)]
    exact hmGet_hmRemove_none h md.key k hk

theorem hmGet_modify_header_none (rex : String → String → String → String)
    (mds : List MapModify) :
    ∀ (h : HeaderMap) (k : String), hmGet h k = none →
      hmGet (modify_header rex h mds) k = none := by
  induction mds with
  | nil => exact fun h k hk => hk
  | cons c t ih =>
    intro h k hk
    exact ih (modifyHeaderEntry rex h c) k (hmGet_modifyHeaderEntry_none rex h c k hk)

/-- **C1.** Response-side cookie editing, per `MapModify` entry: with
`remove` set, the name is deleted from jar A and jar B alike; with
`remove` unset and an action given, the current value is resolved from
jar A first, then jar B, then the empty string, the action is applied to
it, and the resulting cookie is upserted into both jars. -/
theorem claim_C1_res_cookie_entry (rex : String → String → String → String)
    (ab : Jar × Jar) (c : MapModify) :
    (c.remove = true →
      resCookieStep rex ab c = (jarRemove ab.1 c.key, jarRemove ab.2 c.key) ∧
      jarGet (resCookieStep rex ab c).1 c.key = none ∧
      jarGet (resCookieStep rex ab c).2 c.key = none) ∧
    (∀ act, c.remove = false → c.value = some act →
      resCookieStep rex ab c =
        (jarAdd ab.1 ⟨c.key, act.exec_action rex (currentFromJars ab c.key), ""⟩,
         jarAdd ab.2 ⟨c.key, act.exec_action rex (currentFromJars ab c.key), ""⟩) ∧
      jarGet (resCookieStep rex ab c).1 c.key =
        some ⟨c.key, act.exec_action rex (currentFromJars ab c.key), ""⟩ ∧
      jarGet (resCookieStep rex ab c).2 c.key =
        some ⟨c.key, act.exec_action rex (currentFromJars ab c.key), ""⟩) := by
  constructor
  · intro hr
    have heq := resCookieStep_remove rex ab c hr
    refine ⟨heq, ?_, ?_⟩
    · rw [heq]
      exact jarGet_jarRemove_same _ _
    · rw [heq]
      exact jarGet_jarRemove_same _ _
  · intro act hr hv
    have heq := resCookieStep_modify rex ab c act hr hv
    refine ⟨heq, ?_, ?_⟩
    · rw [heq]
      exact jarGet_jarAdd_same _ _
    · rw [heq]
      exact jarGet_jarAdd_same _ _

/-- Witness for C1: modifying `b` (present only in jar B) resolves its
current value from jar B and upserts the result into both jars. -/
theorem claim_C1_res_cookie_entry_witness :
    resCookieStep rexId ([⟨"a", "1", ""⟩], [⟨"b", "2", "; Path=/"⟩])
        { key := "b", value := some (.plain ⟨some "2", "9"⟩), remove := false } =
      ([⟨"a", "1", ""⟩, ⟨"b", "9", ""⟩], [⟨"b", "9", ""⟩]) :=
  (((claim_C1_res_cookie_entry rexId ([⟨"a", "1", ""⟩], [⟨"b", "2", "; Path=/"⟩])
      { key := "b", value := some (.plain ⟨some "2", "9"⟩), remove := false }).2
      (.plain ⟨some "2", "9"⟩) rfl rfl).1).trans (by decide)

/-- **C2.** After a `Modify::Cookies` rule on a response: the emitted
`Set-Cookie` headers are exactly one per entry of the final jar B (every
pre-existing `Set-Cookie` header having been removed); an entry untouched
by any `MapModify` survives in jar B with its attributes intact; and a
single-entry rule modifying a cookie absent from jar B appends a new
attribute-free cookie to jar B alongside the preserved entries. -/
theorem claim_C2_set_cookie_emission (rex : String → String → String → String)
    (mds : List MapModify) (res : Response) :
    (hmGetAll (Modify.modify_res rex (.cookies mds) res).headers "set-cookie" =
      (resCookieJars rex mds res.headers).2.map Cookie.toStr) ∧
    (∀ n, (∀ c ∈ mds, c.key ≠ n) →
      jarGet (resCookieJars rex mds res.headers).2 n =
        jarGet (setCookieJar res.headers) n) ∧
    (∀ (md : MapModify) (act : TextModify) (ck : Cookie),
      md.remove = false → md.value = some act →
      jarGet (setCookieJar res.headers) md.key = none →
      jarGet (cookieHeaderJar res.headers) md.key = some ck →
      (resCookieJars rex [md] res.headers).2 =
        setCookieJar res.headers ++ [⟨md.key, act.exec_action rex ck.value, ""⟩]) := by
  refine ⟨?_, ?_, ?_⟩
  · show hmGetAll
        ((resCookieJars rex mds res.headers).2.foldl
          (fun h c => hmAppendH h "set-cookie" c.toStr)
          (hmRemove
            (hmInsert res.headers "cookie"
              (serializeJar (resCookieJars rex mds res.headers).1))
            "set-cookie"))
        "set-cookie" =
      (resCookieJars rex mds res.headers).2.map Cookie.toStr
    rw [setCookieFold_getAll, hmGetAll_hmRemove_same]
    simp
  · intro n hn
    exact (foldl_resCookieStep_untouched rex n mds
      (cookieHeaderJar res.headers, setCookieJar res.headers) hn).2
  · intro md act ck hr hv hB hA
    show (resCookieStep rex (cookieHeaderJar res.headers, setCookieJar res.headers) md).2 = _
    rw [resCookieStep_modify rex _ md act hr hv]
    show jarAdd (setCookieJar res.headers)
        ⟨md.key, act.exec_action rex
          (currentFromJars (cookieHeaderJar res.headers, setCookieJar res.headers) md.key), ""⟩ = _
    have hcur : currentFromJars (cookieHeaderJar res.headers, setCookieJar res.headers) md.key =
        ck.value := by
      unfold currentFromJars
      rw [show (cookieHeaderJar res.headers, setCookieJar res.headers).1 =
        cookieHeaderJar res.headers from rfl, hA]
    rw [hcur]
    exact jarAdd_of_absent _ _ hB

/-- Witness for C2: request-side `Cookie: a=1` with response
`Set-Cookie: b=2; Path=/`, rule modifying `a`, yields a preserved
attribute-carrying `b` and a new attribute-free `a`. -/
theorem claim_C2_set_cookie_emission_witness :
    (resCookieJars rexId [{ key := "a", value := some (.set ⟨"9"⟩), remove := false }]
        [("cookie", "a=1"), ("set-cookie", "b=2; Path=/")]).2 =
      setCookieJar [("cookie", "a=1"), ("set-cookie", "b=2; Path=/")] ++ [⟨"a", "9", ""⟩] :=
  (claim_C2_set_cookie_emission rexId
    [{ key := "a", value := some (.set ⟨"9"⟩), remove := false }]
    { status := 200, headers := [("cookie", "a=1"), ("set-cookie", "b=2; Path=/")],
      body := .buf (.text "") }).2.2
    { key := "a", value := some (.set ⟨"9"⟩), remove := false } (.set ⟨"9"⟩)
    ⟨"a", "1", ""⟩ rfl rfl (by decide) (by decide)

/-- **C3 (counterexample).** A `MapModify` with `remove = false` and
`value = None` does _not_ leave the cookie map untouched: on a cookie-less
request it creates the cookie `a` with the empty value and emits the
header `Cookie: a=`. -/
theorem claim_C3_counterexample :
    Modify.modify_req rexId (.cookies [{ key := "a" }])
        { headers := [], body := .buf (.text "") } =
      some { headers := [("cookie", "a=")], body := .buf (.text "") } ∧
    jarGet (reqCookieJar rexId [{ key := "a" }] []) "a" = some ⟨"a", "", ""⟩ ∧
    jarGet (cookieHeaderJar []) "a" = none := by
  refine ⟨by decide, by decide, rfl⟩

/-- **C3 (amended).** An entry with `remove = false` and `value = None`
is a no-op for header editing; for cookie editing (request and response
side) it upserts the cookie under the entry's key with the empty-string
value, creating the entry when absent. -/
theorem claim_C3_value_none (rex : String → String → String → String)
    (h : HeaderMap) (j : Jar) (ab : Jar × Jar) (md : MapModify)
    (hr : md.remove = false) (hv : md.value = none) :
    modifyHeaderEntry rex h md = h ∧
    reqCookieStep rex j md = jarAdd j ⟨md.key, "", ""⟩ ∧
    resCookieStep rex ab md = (jarAdd ab.1 ⟨md.key, "", ""⟩, jarAdd ab.2 ⟨md.key, "", ""⟩) := by
  refine ⟨?_, reqCookieStep_value_none rex j md hr hv, resCookieStep_value_none rex ab md hr hv⟩
  unfold modifyHeaderEntry
  rw [if_neg (by simp [hr])]
  cases hq : hmGet h md.key with
  | none => rfl
  | some cur =>
    rw [hv]

/-- Witness for the amended C3. -/
theorem claim_C3_value_none_witness :
    modifyHeaderEntry rexId [("k", "v")] { key := "k" } = [("k", "v")] ∧
    reqCookieStep rexId [] { key := "a" } = [⟨"a", "", ""⟩] := by
  have h := claim_C3_value_none rexId [("k", "v")] [] ([], []) { key := "a" } rfl rfl
  have h2 := claim_C3_value_none rexId [("k", "v")] [] ([], []) { key := "k" } rfl rfl
  exact ⟨h2.1, h.2.1.trans (by decide)⟩

/-- **C7 (counterexample).** On a key holding several values, a
non-remove entry does not write "the single new value under that key":
only the first value is overwritten, the remaining value survives. -/
theorem claim_C7_counterexample :
    hmGetAll (modify_header rexId [("k", "a"), ("k", "b")]
        [{ key := "k", value := some (.set ⟨"X"⟩), remove := false }]) "k" = ["X", "b"] ∧
    hmGetAll (modify_header rexId [("k", "a"), ("k", "b")]
        [{ key := "k", value := some (.set ⟨"X"⟩), remove := false }]) "k" ≠ ["X"] := by
  refine ⟨by decide, by decide⟩

/-- **C7 (amended).** Header editing with a non-remove entry: when the
key exists and an action is given, the action applied to the current
(first) value overwrites that first value in place, leaving any further
values under the key untouched; when the key is absent or the value is
`None`, the entry is a no-op; and header editing never introduces a key
that was not already present. -/
theorem claim_C7_header_edit (rex : String → String → String → String)
    (h : HeaderMap) (md : MapModify) (mds : List MapModify) (act : TextModify) :
    (md.remove = false → md.value = some act → ∀ cur, hmGet h md.key = some cur →
      modifyHeaderEntry rex h md = hmSetFirst h md.key (act.exec_action rex cur) ∧
      hmGet (modifyHeaderEntry rex h md) md.key = some (act.exec_action rex cur)) ∧
    (md.remove = false → hmGet h md.key = none → modifyHeaderEntry rex h md = h) ∧
    (md.remove = false → md.value = none → modifyHeaderEntry rex h md = h) ∧
    (∀ k, hmGet h k = none → hmGet (modify_header rex h mds) k = none) := by
  refine ⟨?_, ?_, ?_, fun k hk => hmGet_modify_header_none rex mds h k hk⟩
  · intro hr hv cur hc
    have heq : modifyHeaderEntry rex h md = hmSetFirst h md.key (act.exec_action rex cur) := by
      unfold modifyHeaderEntry
      rw [if_neg (by simp [hr]), hc, hv]
    refine ⟨heq, ?_⟩
    rw [heq]
    exact hmGet_hmSetFirst_same h md.key _ cur hc
  · intro hr hc
    unfold modifyHeaderEntry
    rw [if_neg (by simp [hr]), hc]
  · intro hr hv
    unfold modifyHeaderEntry
    rw [if_neg (by simp [hr])]
    cases hq : hmGet h md.key with
    | none => rfl
    | some cur => rw [hv]

/-- Witness for C7 on a single-valued key. -/
theorem claim_C7_header_edit_witness :
    modifyHeaderEntry rexId [("k", "a")]
        { key := "k", value := some (.set ⟨"X"⟩), remove := false } = [("k", "X")] ∧
    hmGet (modifyHeaderEntry rexId [("k", "a")]
        { key := "k", value := some (.set ⟨"X"⟩), remove := false }) "k" = some "X" := by
  have h := (claim_C7_header_edit rexId [("k", "a")]
    { key := "k", value := some (.set ⟨"X"⟩), remove := false } [] (.set ⟨"X"⟩)).1
    rfl rfl "a" rfl
  exact ⟨h.1.trans (by decide), h.2⟩

/-- **C8 (counterexample).** Reading a header value on which `to_str()`
fails is not a hard failure: the edit completes, the unreadable value is
silently read as the empty-string default, and the action's result on
`""` is written back. -/
theorem claim_C8_counterexample :
    modify_header_raw rexId [("k", HVal.bad)]
        [{ key := "k", value := some (.plain ⟨some "a", "b"⟩), remove := false }] =
      [("k", HVal.ok "")] := by
  decide

/-- **C8 (amended).** During header editing, a current header value on
which `to_str()` fails is silently replaced by the empty-string default
(`unwrap_or_default`): the entry's action runs on `""` and its result is
written back over the first value under the key; the edit never fails. -/
theorem claim_C8_raw_read_default (rex : String → String → String → String)
    (h : RawHeaderMap) (md : MapModify) (act : TextModify)
    (hr : md.remove = false) (hv : md.value = some act)
    (hb : rawGet h md.key = some .bad) :
    modify_header_raw rex h [md] =
      rawSetFirst h md.key (.ok (act.exec_action rex "")) := by
  show modifyHeaderEntryRaw rex h md = _
  unfold modifyHeaderEntryRaw
  rw [if_neg (by simp [hr]), hb, hv]
  rfl

/-- Witness for the amended C8. -/
theorem claim_C8_raw_read_default_witness :
    modify_header_raw rexId [("k", HVal.bad)]
        [{ key := "k", value := some (.set ⟨"v"⟩), remove := false }] =
      rawSetFirst [("k", HVal.bad)] "k" (.ok "v") :=
  claim_C8_raw_read_default rexId [("k", HVal.bad)]
    { key := "k", value := some (.set ⟨"v"⟩), remove := false } (.set ⟨"v"⟩)
    rfl rfl rfl

/-- **C10.** Every `Modify::Cookies` application inserts the serialized
jar as the single `Cookie` header of the result, on requests and
responses alike; in particular a cookie-less request under an empty
`MapModify` list gains a `Cookie` header with the empty-string value. -/
theorem claim_C10_cookie_header_always (rex : String → String → String → String)
    (mds : List MapModify) (req : Request) (res : Response) :
    (Modify.modify_req rex (.cookies mds) req = some (modifyReqCookies rex mds req)) ∧
    (hmGetAll (modifyReqCookies rex mds req).headers "cookie" =
      [serializeJar (reqCookieJar rex mds req.headers)]) ∧
    (hmGetAll (Modify.modify_res rex (.cookies mds) res).headers "cookie" =
      [serializeJar (resCookieJars rex mds res.headers).1]) ∧
    ((modifyReqCookies rexId ([] : List MapModify)
        { headers := [], body := .buf (.text "") }).headers = [("cookie", "")]) := by
  refine ⟨rfl, ?_, ?_, by decide⟩
  · exact hmGetAll_hmInsert_same _ _ _
  · show hmGetAll
        ((resCookieJars rex mds res.headers).2.foldl
          (fun h c => hmAppendH h "set-cookie" c.toStr)
          (hmRemove
            (hmInsert res.headers "cookie"
              (serializeJar (resCookieJars rex mds res.headers).1))
            "set-cookie"))
        "cookie" = [serializeJar (resCookieJars rex mds res.headers).1]
    rw [setCookieFold_getAll_other _ _ _ (by decide),
      hmGetAll_hmRemove_other _ _ _ (by decide), hmGetAll_hmInsert_same]

/-! ## Conformance checks of the `str::replace` model -/

example : Replace.exec_action ⟨some "ab", "X"⟩ "zababy" = "zXXy" := by decide
example : Replace.exec_action ⟨some "aa", "b"⟩ "aaa" = "ba" := by decide
example : Replace.exec_action ⟨none, "n"⟩ "whatever" = "n" := by decide
example : Replace.exec_action ⟨some "", "-"⟩ "abc" = "-a-b-c-" := by decide
